import Mathlib

/-!
Verification of the static-site build script (`build.py`).

The script compiles Typst notes to SVG pages, assembles an HTML page per
note, extracts a plain-text preview from the Typst source via a chain of
regular-expression substitutions, resolves a per-note timestamp from git
(falling back to wall-clock time), and emits a manifest `notes-data.json`
sorted by timestamp descending.

The embedding below translates each piece of the script into executable
Lean definitions.  Regular-expression substitutions are translated into
recursive functions on `List Char` that implement the exact leftmost /
greedy semantics of the concrete patterns used by the script (each pattern
is simple enough that greedy matching never needs backtracking, which the
comments justify case by case).  Character classes (`\s`, `\w`) are the
ASCII ones; the concrete inputs of interest are ASCII.
-/

/-- Python's `\s` class (ASCII range): space, tab, newline, carriage
return, vertical tab, form feed. -/
def isSpaceChar (c : Char) : Bool :=
  c = ' ' || c = '\t' || c = '\n' || c = '\r' || c = '\x0b' || c = '\x0c'

/-- Python's `\w` class (ASCII range): letters, digits, underscore. -/
def isWordChar (c : Char) : Bool :=
  c.isAlphanum || c = '_'

/-- Scanner state for the heading-stripping pass
(`re.sub(r"^=+\s+.*$", "", text, flags=re.MULTILINE)`, line 37 of
`extract_preview`). -/
inductive ShMode : Type
  /-- at the start of a line (`^` holds here) -/
  | lineStart
  /-- in the middle of a line, not inside a match -/
  | midLine
  /-- inside a run of `=` at a line start; the `Nat` argument of the
  scanner counts the `=` seen so far -/
  | inEquals
  /-- inside the `\s+` part of a heading match (may span newlines,
  since `\s` matches a newline while `.` does not) -/
  | headWs
  /-- inside the `.*$` part of a heading match: consuming the rest of
  the current line -/
  | headRest
deriving DecidableEq

/-- Implements `re.sub(r"^=+\s+.*$", "", text, flags=re.MULTILINE)` from
`extract_preview` (line 37), as a one-pass scanner: at a line start, one
or more `=` followed by at least one whitespace character and then the
rest of that line are deleted.  The pattern needs no backtracking: `=+`
is maximal (giving back an `=` cannot make `\s+` match, as `=` is not
whitespace), `\s+` is maximal, and `.*$` always succeeds on the
remainder of the line; a match can only start where `^` holds.  The
`Nat` argument buffers a run of `=` seen at a line start, which must be
re-emitted when no whitespace follows it. -/
def stripHeadingsGo : ShMode → Nat → List Char → List Char
  | .lineStart, _, [] => []
  | .lineStart, _, c :: rest =>
    if c = '=' then stripHeadingsGo .inEquals 1 rest
    else if c = '\n' then '\n' :: stripHeadingsGo .lineStart 0 rest
    else c :: stripHeadingsGo .midLine 0 rest
  | .midLine, _, [] => []
  | .midLine, _, c :: rest =>
    if c = '\n' then '\n' :: stripHeadingsGo .lineStart 0 rest
    else c :: stripHeadingsGo .midLine 0 rest
  | .inEquals, n, [] => List.replicate n '='
  | .inEquals, n, c :: rest =>
    if c = '=' then stripHeadingsGo .inEquals (n + 1) rest
    else if isSpaceChar c then stripHeadingsGo .headWs 0 rest
    else List.replicate n '=' ++ c :: stripHeadingsGo .midLine 0 rest
  | .headWs, _, [] => []
  | .headWs, _, c :: rest =>
    if isSpaceChar c then stripHeadingsGo .headWs 0 rest
    else stripHeadingsGo .headRest 0 rest
  | .headRest, _, [] => []
  | .headRest, _, c :: rest =>
    if c = '\n' then '\n' :: stripHeadingsGo .lineStart 0 rest
    else stripHeadingsGo .headRest 0 rest

/-- The heading-stripping pass starts at a line start. -/
def stripHeadings (l : List Char) : List Char :=
  stripHeadingsGo .lineStart 0 l

/-- Implements `re.sub(r"#\w+[^)\n]*\)?", "", text)` from `extract_preview`
(line 38), as a one-pass scanner: a `#` followed by at least one word
character starts a match; the match then greedily consumes every
character that is neither `)` nor a newline, and finally an optional
`)`.  No backtracking is needed: word characters are also `[^)\n]`
characters, so shrinking `\w+` never enables a longer match, and the
trailing `\)?` is optional.  The boolean argument is `true` while the
scanner is inside the body of a match (the `\w*[^)\n]*\)?` part after
`#` and the first word character). -/
def stripDirectivesGo : Bool → List Char → List Char
  | _, [] => []
  | true, c :: rest =>
    if c = ')' then stripDirectivesGo false rest
    else if c = '\n' then '\n' :: stripDirectivesGo false rest
    else stripDirectivesGo true rest
  | false, c :: rest =>
    if c = '#' then
      match rest with
      | [] => ['#']
      | c2 :: rest2 =>
        if isWordChar c2 then stripDirectivesGo true rest2
        else '#' :: stripDirectivesGo false (c2 :: rest2)
    else c :: stripDirectivesGo false rest

/-- The directive-stripping pass starts outside a match. -/
def stripDirectives (l : List Char) : List Char :=
  stripDirectivesGo false l

/-- Implements `re.sub(r"\$[^$]*\$", "", text)` from `extract_preview` (line 39),
as a one-pass scanner: a `$` opens a match that consumes up to the next
`$` (`[^$]*` cannot cross a `$`); if no closing `$` exists, the position
does not match, and no later position can start a match either (there is
no further `$`), so the pending text is emitted verbatim at the end of
the input.  `some buf` holds the (reversed) characters consumed since
the pending opening `$`. -/
def stripMathGo : Option (List Char) → List Char → List Char
  | none, [] => []
  | some buf, [] => '$' :: buf.reverse
  | none, c :: rest =>
    if c = '$' then stripMathGo (some []) rest
    else c :: stripMathGo none rest
  | some buf, c :: rest =>
    if c = '$' then stripMathGo none rest
    else stripMathGo (some (c :: buf)) rest

/-- The math-stripping pass starts outside a math segment. -/
def stripMath (l : List Char) : List Char :=
  stripMathGo none l

/-- Implements `re.sub(r"[*_`]", "", text)` from `extract_preview` (line 40):
deletes every `*`, `_` and backtick character. -/
def stripEmph (l : List Char) : List Char :=
  l.filter (fun c => !(c == '*' || c == '_' || c == Char.ofNat 96))

/-- Implements `re.sub(r"\s+", " ", text)` from `extract_preview` (line 41): every
maximal run of whitespace becomes a single space.  The boolean records
whether the previous character belonged to a whitespace run. -/
def collapseAux : Bool → List Char → List Char
  | _, [] => []
  | prevWs, c :: rest =>
    if isSpaceChar c then
      if prevWs then collapseAux true rest
      else ' ' :: collapseAux true rest
    else c :: collapseAux false rest

/-- Python's `str.strip()` (ASCII whitespace): drop leading and trailing
whitespace. -/
def pyStripL (l : List Char) : List Char :=
  ((l.dropWhile isSpaceChar).reverse.dropWhile isSpaceChar).reverse

/-- The whitespace-collapsed plain text of a note source: the result of
lines 36–41 of `extract_preview`, before the length cap is applied. -/
def collapsedText (text : String) : List Char :=
  pyStripL (collapseAux false
    (stripEmph (stripMath (stripDirectives (stripHeadings text.data)))))

/-- Python's `s.rsplit(" ", 1)[0]`: everything before the last space, or
the whole string when it contains no space. -/
def rsplitBeforeLast (l : List Char) : List Char :=
  if l.contains ' ' then
    ((l.reverse.dropWhile (fun c => !(c == ' '))).drop 1).reverse
  else l

/-- Lines 42–43 of `extract_preview`: when the collapsed text is longer
than `max_len`, keep the first `max_len` characters, cut back to the last
space among them (if any), and append the ellipsis `"..."`. -/
def truncateL (l : List Char) (max_len : Nat) : List Char :=
  if max_len < l.length then
    rsplitBeforeLast (l.take max_len) ++ ['.', '.', '.']
  else l

/-- The pure text pipeline of `extract_preview` (lines 36–44), applied to
the contents of the `.typ` file. -/
def extract_previewText (text : String) (max_len : Nat) : String :=
  String.mk (truncateL (collapsedText text) max_len)

/-- The function `extract_preview` itself first reads the file (line 36,
`typ_path.read_text()`): a missing file makes `read_text` raise
`FileNotFoundError`, which nothing in `extract_preview` (or in `build`)
catches; the file contents are modelled as `Option String` and the raised
exception as `Except.error ()`. -/
def extract_preview (fileText : Option String) (max_len : Nat) :
    Except Unit String :=
  match fileText with
  | none => Except.error ()
  | some text => Except.ok (extract_previewText text max_len)

/-- A digit run in Python's `int()` syntax, continuing after a first
digit whose value is `acc`: further digits, with single underscores
allowed between digits (`int("1_2") == 12`), no leading, trailing or
doubled underscore. -/
def digitsGo : List Char → Nat → Option Nat
  | [], acc => some acc
  | c :: rest, acc =>
    if c = '_' then
      match rest with
      | [] => none
      | d :: rest2 =>
        if d.isDigit then digitsGo rest2 (acc * 10 + (d.toNat - 48)) else none
    else if c.isDigit then digitsGo rest (acc * 10 + (c.toNat - 48)) else none

/-- An unsigned digit run in Python's `int()` syntax: at least one digit
required. -/
def digitsVal : List Char → Option Nat
  | [] => none
  | c :: rest => if c.isDigit then digitsGo rest (c.toNat - 48) else none

/-- Python's `int(s)` on an already-stripped string (ASCII digits):
optional sign then digits; `none` models the `ValueError` that
`int()` raises on malformed input (caught by the `except` in
`get_git_timestamp`). -/
def parsePyInt (l : List Char) : Option Int :=
  match l with
  | '+' :: rest => (digitsVal rest).map (fun n => (n : Int))
  | '-' :: rest => (digitsVal rest).map (fun n => -(n : Int))
  | _ => (digitsVal l).map (fun n => (n : Int))

/-- Implements `get_git_timestamp` (lines 17–31): the `subprocess.run` outcome is
modelled as `Option String` (`none` when the invocation itself raises,
e.g. the git tool is absent; `some out` is the captured stdout).  The
stdout is stripped; empty output yields `None`; `int()` is applied
otherwise, and any exception — including a `ValueError` from a
non-integer output — is absorbed by the `try/except`, yielding `None`.
The Lean function is total: no failure escapes. -/
def get_git_timestamp (queryResult : Option String) : Option Int :=
  match queryResult with
  | none => none
  | some out =>
    let ts := pyStripL out.data
    if ts.isEmpty then none else parsePyInt ts

/-- Lines 143–145 of `build`: the record timestamp is the git timestamp
when one was resolved, and the current wall-clock time otherwise. -/
def resolveTimestamp (queryResult : Option String) (wallClock : Int) : Int :=
  (get_git_timestamp queryResult).getD wallClock

/-- One registry entry of `notes.json` (lines 55–58): `title` and
`folder` are required, `labels` defaults to `[]`. -/
structure NoteDescriptor where
  title : String
  folder : String
  labels : List String
deriving DecidableEq

/-- The environment one descriptor's pipeline runs against: whether its
source folder exists (line 62), the contents of its `main.typ`, the
compiler's exit status (line 86), the git query outcome and the
wall-clock time used by the timestamp fallback. -/
structure BuildEnv where
  folderExists : Bool
  mainTyp : String
  compileRc : Int
  gitOut : Option String
  wallClock : Int
deriving DecidableEq

/-- One entry of `notes-data.json` (lines 147–155). -/
structure NoteRecord where
  title : String
  folder : String
  labels : List String
  timestamp : Int
  preview : String
deriving DecidableEq

/-- The record appended for a successfully built note (lines 147–155). -/
def mkRecord (d : NoteDescriptor) (e : BuildEnv) : NoteRecord :=
  { title := d.title
    folder := d.folder
    labels := d.labels
    timestamp := resolveTimestamp e.gitOut e.wallClock
    preview := extract_previewText e.mainTyp 200 }

/-- The per-descriptor loop of `build` (lines 55–155): a descriptor
whose folder is missing is skipped with a warning (lines 62–64,
`continue`); one whose compiler invocation exits nonzero is skipped
after logging stderr (lines 86–89, `continue`); otherwise exactly one
record is appended.  Only the record accumulation is modelled; the
logged messages and the per-note file outputs are handled separately. -/
def buildRecords : List (NoteDescriptor × BuildEnv) → List NoteRecord
  | [] => []
  | (d, e) :: rest =>
    if e.folderExists then
      if e.compileRc = 0 then mkRecord d e :: buildRecords rest
      else buildRecords rest
    else buildRecords rest

/-- The ordering used by `notes_data.sort(key=lambda n: n["timestamp"],
reverse=True)` (line 157): timestamp descending. -/
def recGE (a b : NoteRecord) : Prop := b.timestamp ≤ a.timestamp

instance : DecidableRel recGE :=
  fun a b => inferInstanceAs (Decidable (b.timestamp ≤ a.timestamp))

instance : IsTotal NoteRecord recGE :=
  ⟨fun a b => Int.le_total b.timestamp a.timestamp⟩

instance : IsTrans NoteRecord recGE :=
  ⟨fun _ _ _ hab hbc => le_trans hbc hab⟩

/-- Line 157: Python's `list.sort` is a stable sort; a stable sort for a
fixed total preorder is extensionally unique, and insertion sort with
`recGE` is stable for the same key-descending order (the incoming
element is inserted after all earlier elements with an equal timestamp),
so it is the same function. -/
def notesData (l : List (NoteDescriptor × BuildEnv)) : List NoteRecord :=
  List.insertionSort recGE (buildRecords l)

/-- Holds when `suf` is a suffix of `l`. -/
def endsWithL (suf l : List Char) : Bool :=
  suf.reverse.isPrefixOf l.reverse

/-- The glob pattern `*.typ` of line 140 on one file name: `*` matches
any run of characters (a path separator cannot occur inside a name), so
the pattern holds exactly for names ending in `.typ`. -/
def matchTypGlob (name : String) : Bool :=
  endsWithL ".typ".data name.data

/-- The glob pattern `page-*.svg` of line 92 on one file name: a
`page-` prefix, a `.svg` suffix, and enough length that the two do not
overlap. -/
def matchPageSvgGlob (name : String) : Bool :=
  "page-".data.isPrefixOf name.data && endsWithL ".svg".data name.data &&
    decide (9 ≤ name.data.length)

/-- A relative path (as segments) is a top-level file whose name
matches `pat`: `Path.glob` with a separator-free pattern only yields
direct children. -/
def topMatches (pat : String → Bool) : List String → Bool
  | [name] => pat name
  | _ => false

/-- The contents of `dist/notes/<folder>/` at the end of one successful
iteration of `build`, as relative paths: the copied source tree
(line 66), plus the synthesized `_build.typ` wrapper (line 72), plus the
compiler's top-level SVG outputs; then every top-level `page-*.svg` is
unlinked after being inlined (lines 92–104), `index.html` is written
(line 137), and finally every top-level `*.typ` is unlinked
(lines 139–141). -/
def afterBuildFolder (copied : List (List String)) (pages : List String) :
    List (List String) :=
  ((((copied ++ [["_build.typ"]] ++ pages.map (fun n => [n])).filter
      (fun p => !(topMatches matchPageSvgGlob p))) ++ [["index.html"]]).filter
    (fun p => !(topMatches matchTypGlob p)))

/-- The page order of line 92–93: `sorted(..., key=lambda p:
int(p.stem.split("-")[1]))`, modelled on (page number, page document)
pairs. -/
def pageLe (p q : Nat × String) : Prop := p.1 ≤ q.1

instance : DecidableRel pageLe :=
  fun p q => inferInstanceAs (Decidable (p.1 ≤ q.1))

instance : IsTotal (Nat × String) pageLe :=
  ⟨fun p q => Nat.le_total p.1 q.1⟩

instance : IsTrans (Nat × String) pageLe :=
  ⟨fun _ _ _ hab hbc => Nat.le_trans hab hbc⟩

/-- Python's `sorted` is stable; for its ordering it is extensionally
the same function as insertion sort (page numbers of distinct files are
distinct, so stability is moot here anyway). -/
def sortPages (files : List (Nat × String)) : List (Nat × String) :=
  List.insertionSort pageLe files

/-- Computes `dropPref p l = some r` exactly when `l = p ++ r`. -/
def dropPref : List Char → List Char → Option (List Char)
  | [], l => some l
  | _ :: _, [] => none
  | p :: ps, c :: cs => if p = c then dropPref ps cs else none

/-- The `[^"]*"` part of the attribute pattern: consume up to the next
`"`, which must exist, and return the remainder after it.  (When the
`dropWhile` result is nonempty its head necessarily fails the
predicate, i.e. is `"`, so no head test is needed.) -/
def quoteSplit (tail : List Char) : Option (List Char) :=
  match tail.dropWhile (fun d => !(d == '"')) with
  | _ :: r => some r
  | [] => none

/-- One match attempt of `re.sub(r'\s+NAME="[^"]*"', '', s, count=1)`
(lines 101–102) at the current position: the position must start with a
whitespace character; the greedy `\s+` consumes the maximal whitespace
run (no backtracking can help: giving back a whitespace character makes
the literal `NAME` face a whitespace character); then the literal
`NAME="`, then `[^"]*` up to the next `"`, which must exist.  Returns
the remainder after the match. -/
def tryAttrAt (name : List Char) (l : List Char) : Option (List Char) :=
  match l with
  | [] => none
  | c :: _ =>
    if isSpaceChar c then
      (dropPref (name ++ ['=', '"']) (l.dropWhile isSpaceChar)).bind quoteSplit
    else none

/-- Implements `re.sub(r'\s+NAME="[^"]*"', '', s, count=1)`: scan left to right for
the first matching position, delete that one match, and keep the rest of
the string verbatim (`count=1`). -/
def removeFirstAttrGo (name : List Char) : List Char → List Char
  | [] => []
  | c :: rest =>
    match tryAttrAt name (c :: rest) with
    | some r => r
    | none => c :: removeFirstAttrGo name rest

/-- Lines 101–102: first the `width` substitution, then the `height`
substitution on its result. -/
def stripWH (l : List Char) : List Char :=
  removeFirstAttrGo "height".data (removeFirstAttrGo "width".data l)

/-- Lines 96–104: the inlined SVG blocks, in page order, each with the
two sizing substitutions applied. -/
def svgBlocks (files : List (Nat × String)) : List String :=
  (sortPages files).map (fun p => String.mk (stripWH p.2.data))

/-- The HTML template of lines 106–133 up to the SVG insertion point
(the `{title}` interpolation spliced in, `{{`/`}}` unescaped to literal
braces). -/
def htmlLead (title : String) : String :=
  "<!DOCTYPE html>\n<html lang=\"en\">\n<head>\n  <meta charset=\"UTF-8\">\n  <meta name=\"viewport\" content=\"width=device-width, initial-scale=1.0\">\n  <title>" ++
  title ++
  "</title>\n  <style>\n    body \x7b margin: 0; padding: 0; background: #fdfdfd; \x7d\n    .note-nav \x7b\n      font-family: system-ui, -apple-system, sans-serif;\n      font-size: 0.9rem;\n      padding: 0.75rem 0 0.5rem;\n      /* 30pt margin / 700pt page width */\n      margin-left: 4.3%;\n    \x7d\n    .note-nav a \x7b\n      color: #2563eb;\n      text-decoration: none;\n    \x7d\n    .note-nav a:hover \x7b\n      text-decoration: underline;\n    \x7d\n    svg \x7b display: block; width: 100%; height: auto; \x7d\n  </style>\n</head>\n<body>\n  <nav class=\"note-nav\"><a href=\"../../\">&lt; Back to notes</a></nav>\n"

/-- The HTML template of lines 133–136 after the SVG insertion point. -/
def htmlSuffix : String := "\n</body>\n</html>\n"

/-- Lines 91–137: the assembled per-note HTML document — the template
with `"".join(svg_blocks)` spliced between prefix and suffix (no
separator between page documents). -/
def assembleHtml (title : String) (files : List (Nat × String)) : String :=
  htmlLead title ++ String.join (svgBlocks files) ++ htmlSuffix

/-- A well-formed sizing-attribute occurrence for `NAME`, as matched by
`\s+NAME="[^"]*"`: a nonempty whitespace run, the literal `NAME="`, a
quote-free value, a closing quote. -/
def IsAttrM (name m : List Char) : Prop :=
  ∃ ws v, m = ws ++ name ++ '=' :: '"' :: (v ++ ['"']) ∧ ws ≠ [] ∧
    (∀ c ∈ ws, isSpaceChar c = true) ∧ (∀ c ∈ v, c ≠ '"')

/-- Holds when `l` contains an occurrence of the `NAME` sizing attribute. -/
def HasAttrOcc (name l : List Char) : Prop :=
  ∃ a m b, l = a ++ m ++ b ∧ IsAttrM name m

/-- Holds when `out` is `src` with exactly its first (leftmost) `NAME`
sizing-attribute occurrence removed and nothing else changed. -/
def RemovedFirstAttr (name src out : List Char) : Prop :=
  ∃ a m b, src = a ++ m ++ b ∧ out = a ++ b ∧ IsAttrM name m ∧
    ∀ a' m' b', src = a' ++ m' ++ b' → IsAttrM name m' → a.length ≤ a'.length

/-- Scanner state for `claimStripDirectives`. -/
inductive ClaimSdMode : Type
  /-- outside any directive token -/
  | normal
  /-- inside the identifier following the `#` marker -/
  | ident
  /-- inside a parenthesized argument list -/
  | args
deriving DecidableEq

/-- The directive-stripping step as the claim for C4 words it: remove
exactly the marker character, the identifier following it, and — when
one is present, i.e. when `(` immediately follows the identifier — the
parenthesized argument list through its closing `)`, and nothing else.
This definition follows the claim's words, for comparison with
`stripDirectives`, which follows the code. -/
def claimSdGo : ClaimSdMode → List Char → List Char
  | _, [] => []
  | .normal, c :: rest =>
    if c = '#' then
      match rest with
      | [] => ['#']
      | c2 :: rest2 =>
        if isWordChar c2 then claimSdGo .ident rest2
        else '#' :: claimSdGo .normal (c2 :: rest2)
    else c :: claimSdGo .normal rest
  | .ident, c :: rest =>
    if isWordChar c then claimSdGo .ident rest
    else if c = '(' then claimSdGo .args rest
    else c :: claimSdGo .normal rest
  | .args, c :: rest =>
    if c = ')' then claimSdGo .normal rest
    else claimSdGo .args rest

/-- The claim-side directive-stripping pass. -/
def claimStripDirectives (l : List Char) : List Char :=
  claimSdGo .normal l

/-- Two adjacent characters are not both whitespace. -/
def NoTwoWs (a b : Char) : Prop :=
  isSpaceChar a = false ∨ isSpaceChar b = false

example : extract_previewText "= Intro\n#figure(img.png)\nSome $x+1$ text with *bold*." 200 =
    "Some text with bold." := by decide

example : extract_previewText "hello   world\n" 200 = "hello world" := by decide

example : extract_previewText "abcd efgh" 6 = "abcd..." := by decide

example : extract_previewText "abcdefgh" 6 = "abcdef..." := by decide

/-- Helper: `dropWhile` never lengthens a list. -/
theorem len_dropWhile_le (p : α → Bool) (l : List α) :
    (l.dropWhile p).length ≤ l.length :=
  (List.dropWhile_sublist p).length_le

/-- After `dropWhile p`, the head (if any) fails `p`. -/
theorem dropWhile_head_all (p : Char → Bool) (l : List Char) :
    ((l.dropWhile p).head?).all (fun c => !(p c)) = true := by
  induction l with
  | nil => rfl
  | cons c rest ih =>
    by_cases h : p c = true
    · rw [List.dropWhile_cons_of_pos h]
      exact ih
    · rw [List.dropWhile_cons_of_neg h]
      simp [h]

/-- In whitespace-collapsing mode `true` (previous character was part of
a whitespace run), the next emitted character is not whitespace. -/
theorem collapseAux_true_head (l : List Char) :
    ((collapseAux true l).head?).all (fun c => !(isSpaceChar c)) = true := by
  induction l with
  | nil => rfl
  | cons c rest ih =>
    by_cases h : isSpaceChar c = true
    · simpa [collapseAux, h] using ih
    · simp [collapseAux, h]

/-- The output of the whitespace-collapsing pass never has two adjacent
whitespace characters. -/
theorem collapseAux_chain (b : Bool) (l : List Char) :
    List.Chain' NoTwoWs (collapseAux b l) := by
  induction l generalizing b with
  | nil => cases b <;> exact List.chain'_nil
  | cons c rest ih =>
    by_cases h : isSpaceChar c = true
    · cases b with
      | true => simpa [collapseAux, h] using ih true
      | false =>
        have hgoal : collapseAux false (c :: rest) = ' ' :: collapseAux true rest := by
          simp [collapseAux, h]
        rw [hgoal, List.chain'_cons']
        refine ⟨fun y hy => ?_, ih true⟩
        have hall := collapseAux_true_head rest
        rw [Option.mem_def] at hy
        rw [hy] at hall
        exact Or.inr (by simpa using hall)
    · have hgoal : collapseAux b (c :: rest) = c :: collapseAux false rest := by
        cases b <;> simp [collapseAux, h]
      rw [hgoal, List.chain'_cons']
      exact ⟨fun y _ => Or.inl (by simpa using h), ih false⟩

/-- Python `strip()` leaves no leading whitespace. -/
theorem pyStripL_head (l : List Char) :
    ((pyStripL l).head?).all (fun c => !(isSpaceChar c)) = true := by
  have hdecomp : l.dropWhile isSpaceChar =
      pyStripL l ++ ((l.dropWhile isSpaceChar).reverse.takeWhile isSpaceChar).reverse := by
    unfold pyStripL
    conv_lhs =>
      rw [← List.reverse_reverse (l.dropWhile isSpaceChar),
        ← List.takeWhile_append_dropWhile isSpaceChar (l.dropWhile isSpaceChar).reverse]
    rw [List.reverse_append]
  cases hh : (pyStripL l).head? with
  | none => simp
  | some c =>
    have h1 : (l.dropWhile isSpaceChar).head? = some c := by
      rw [hdecomp, List.head?_append, hh]
      rfl
    have h2 := dropWhile_head_all isSpaceChar l
    rw [h1] at h2
    simpa using h2

/-- Python `strip()` leaves no trailing whitespace. -/
theorem pyStripL_last (l : List Char) :
    ((pyStripL l).getLast?).all (fun c => !(isSpaceChar c)) = true := by
  unfold pyStripL
  rw [List.getLast?_reverse]
  exact dropWhile_head_all _ _

/-- A `Chain'` invariant survives `dropWhile` (a contiguous tail segment). -/
theorem chain_dropWhile {R : Char → Char → Prop} (p : Char → Bool) (l : List Char)
    (h : List.Chain' R l) : List.Chain' R (l.dropWhile p) := by
  rw [← List.takeWhile_append_dropWhile p l] at h
  exact (List.chain'_append.mp h).2.1

/-- Since `NoTwoWs` is symmetric, `Chain'` survives `reverse`. -/
theorem chain_reverse_noTwoWs (l : List Char) (h : List.Chain' NoTwoWs l) :
    List.Chain' NoTwoWs l.reverse :=
  List.chain'_reverse.mpr (h.imp (fun _ _ hab => Or.symm hab))

/-- Python `strip()` preserves the no-adjacent-whitespace invariant. -/
theorem pyStripL_chain (l : List Char) (h : List.Chain' NoTwoWs l) :
    List.Chain' NoTwoWs (pyStripL l) := by
  unfold pyStripL
  exact chain_reverse_noTwoWs _
    (chain_dropWhile _ _ (chain_reverse_noTwoWs _ (chain_dropWhile _ _ h)))

/-- Dropping up to (and not including) a present element reaches it. -/
theorem dropWhile_until_mem {a : Char} {l : List Char} (h : a ∈ l) :
    ∃ Y, l.dropWhile (fun c => !(c == a)) = a :: Y := by
  induction l with
  | nil => cases h
  | cons c rest ih =>
    by_cases hca : c = a
    · subst hca
      exact ⟨rest, by rw [List.dropWhile_cons_of_neg (by simp)]⟩
    · have hmem : a ∈ rest := by
        cases h with
        | head => exact absurd rfl hca
        | tail _ hm => exact hm
      obtain ⟨Y, hY⟩ := ih hmem
      exact ⟨Y, by rw [List.dropWhile_cons_of_pos (by simp [hca]), hY]⟩

/-- Python `rsplit(" ", 1)[0]` is an initial segment of its input. -/
theorem rsplit_decomp (l : List Char) : ∃ t, l = rsplitBeforeLast l ++ t := by
  unfold rsplitBeforeLast
  split
  · next hc =>
    have hmem : ' ' ∈ l.reverse := List.mem_reverse.mpr (by simpa using hc)
    obtain ⟨Y, hY⟩ := dropWhile_until_mem hmem
    refine ⟨' ' :: (l.reverse.takeWhile (fun c => !(c == ' '))).reverse, ?_⟩
    conv_lhs =>
      rw [← List.reverse_reverse l,
        ← List.takeWhile_append_dropWhile (fun c => !(c == ' ')) l.reverse]
    rw [List.reverse_append, hY]
    simp
  · exact ⟨[], by simp⟩

/-- C9: the preview contains no two consecutive whitespace characters
and has no leading or trailing whitespace: the `\s+ → " "` collapse
(line 41) leaves only isolated spaces, `.strip()` removes the ends, and
the truncation step only keeps an initial segment of the collapsed text
and appends non-whitespace `"..."`. -/
theorem extract_preview_ws_normalized (text : String) (max_len : Nat) :
    List.Chain' NoTwoWs (extract_previewText text max_len).data ∧
    (((extract_previewText text max_len).data.head?).all
      (fun c => !(isSpaceChar c)) = true) ∧
    (((extract_previewText text max_len).data.getLast?).all
      (fun c => !(isSpaceChar c)) = true) := by
  have hchainS : List.Chain' NoTwoWs (collapsedText text) :=
    pyStripL_chain _ (collapseAux_chain false _)
  have hheadS : ((collapsedText text).head?).all (fun c => !(isSpaceChar c)) = true :=
    pyStripL_head _
  have hlastS : ((collapsedText text).getLast?).all (fun c => !(isSpaceChar c)) = true :=
    pyStripL_last _
  have hdot : isSpaceChar '.' = false := by decide
  have hdata : (extract_previewText text max_len).data =
      truncateL (collapsedText text) max_len := rfl
  rw [hdata]
  unfold truncateL
  by_cases h : max_len < (collapsedText text).length
  · rw [if_pos h]
    obtain ⟨t1, ht1⟩ := rsplit_decomp ((collapsedText text).take max_len)
    have hS : collapsedText text =
        rsplitBeforeLast ((collapsedText text).take max_len) ++
          (t1 ++ (collapsedText text).drop max_len) := by
      conv_lhs => rw [← List.take_append_drop max_len (collapsedText text)]
      rw [← List.append_assoc, ← ht1]
    refine ⟨?_, ?_, ?_⟩
    · rw [List.chain'_append]
      refine ⟨?_, ?_, ?_⟩
      · have hc := hchainS
        rw [hS] at hc
        exact (List.chain'_append.mp hc).1
      · rw [List.chain'_cons', List.chain'_cons']
        exact ⟨fun y _ => Or.inl hdot, fun y _ => Or.inl hdot, List.chain'_singleton _⟩
      · intro x _ y hy
        simp only [List.head?_cons, Option.mem_def, Option.some.injEq] at hy
        subst hy
        exact Or.inr hdot
    · rw [List.head?_append]
      cases hA : (rsplitBeforeLast ((collapsedText text).take max_len)).head? with
      | none => decide
      | some c =>
        have hSc : (collapsedText text).head? = some c := by
          rw [hS, List.head?_append, hA]
          rfl
        rw [hSc] at hheadS
        simpa using hheadS
    · have hsplit : rsplitBeforeLast ((collapsedText text).take max_len) ++ ['.', '.', '.'] =
          (rsplitBeforeLast ((collapsedText text).take max_len) ++ ['.', '.']) ++ ['.'] := by
        simp
      rw [hsplit, List.getLast?_concat]
      simp [hdot]
  · rw [if_neg h]
    exact ⟨hchainS, hheadS, hlastS⟩

/-- Python `rsplit(" ", 1)[0]` never lengthens its input. -/
theorem rsplit_len_le (l : List Char) : (rsplitBeforeLast l).length ≤ l.length := by
  unfold rsplitBeforeLast
  split
  · simp only [List.length_reverse, List.length_drop]
    have h := len_dropWhile_le (fun c => !(c == ' ')) l.reverse
    simp only [List.length_reverse] at h
    omega
  · exact Nat.le_refl _

/-- C1: the claim asserts the preview length never exceeds the
configured maximum (default 200).  False: on a 201-character spaceless
input with the default cap, `text[:200].rsplit(" ", 1)[0]` is the whole
200-character prefix and the appended `"..."` makes the preview 203
characters long. -/
theorem extract_preview_cap_counterexample :
    200 < (extract_previewText (String.mk (List.replicate 201 'a')) 200).length := by
  set_option maxRecDepth 4000 in decide

/-- C1 (amended): the preview's character length is at most the
configured maximum plus 3 — the word-boundary cut keeps at most
`max_len` characters and the appended ellipsis `"..."` can push the
total up to 3 characters past the cap.  When the whitespace-collapsed
text exceeds the maximum, the preview ends with the ellipsis marker;
when it does not, the collapsed text is returned verbatim, with no
ellipsis appended. -/
theorem extract_preview_length_ellipsis (text : String) (max_len : Nat) :
    (extract_previewText text max_len).length ≤ max_len + 3 ∧
    (max_len < (collapsedText text).length →
      ['.', '.', '.'] <:+ (extract_previewText text max_len).data) ∧
    ((collapsedText text).length ≤ max_len →
      extract_previewText text max_len = String.mk (collapsedText text)) := by
  by_cases h : max_len < (collapsedText text).length
  · refine ⟨?_, fun _ => ?_, fun hle => absurd h (by omega)⟩
    · show (truncateL (collapsedText text) max_len).length ≤ max_len + 3
      unfold truncateL
      rw [if_pos h, List.length_append]
      have h1 := rsplit_len_le ((collapsedText text).take max_len)
      rw [List.length_take] at h1
      simp only [List.length_cons, List.length_nil]
      omega
    · show ['.', '.', '.'] <:+ truncateL (collapsedText text) max_len
      unfold truncateL
      rw [if_pos h]
      exact List.suffix_append _ _
  · refine ⟨?_, fun hlt => absurd hlt h, fun _ => ?_⟩
    · show (truncateL (collapsedText text) max_len).length ≤ max_len + 3
      unfold truncateL
      rw [if_neg h]
      omega
    · unfold extract_previewText truncateL
      rw [if_neg h]

/-- Witness for `extract_preview_length_ellipsis`: a truncated input
(cap 5, 7 spaceless characters) gets the ellipsis; a short input is
returned verbatim. -/
theorem extract_preview_length_ellipsis_witness :
    (5 < (collapsedText "aaaaaaa").length ∧
      ['.', '.', '.'] <:+ (extract_previewText "aaaaaaa" 5).data) ∧
    ((collapsedText "ab").length ≤ 5 ∧
      extract_previewText "ab" 5 = String.mk (collapsedText "ab")) :=
  ⟨⟨by decide, (extract_preview_length_ellipsis "aaaaaaa" 5).2.1 (by decide)⟩,
   ⟨by decide, (extract_preview_length_ellipsis "ab" 5).2.2 (by decide)⟩⟩

/-- Inserting a record with timestamp `t` goes after every earlier
record with timestamp `t` (stability of the descending insertion). -/
theorem orderedInsert_filter_pos (t : Int) (a : NoteRecord) (ha : a.timestamp = t)
    (l : List NoteRecord) :
    (List.orderedInsert recGE a l).filter (fun r => r.timestamp == t) =
      a :: l.filter (fun r => r.timestamp == t) := by
  induction l with
  | nil => simp [List.orderedInsert, List.filter_cons, ha]
  | cons b l ih =>
    by_cases h : recGE a b
    · simp [List.orderedInsert, h, List.filter_cons, ha]
    · have hb : (b.timestamp == t) = false := by
        have hlt : a.timestamp < b.timestamp := by
          unfold recGE at h
          omega
        simp only [beq_eq_false_iff_ne, ne_eq]
        omega
      simp [List.orderedInsert, h, List.filter_cons, hb, ih]

/-- Inserting a record with a different timestamp does not disturb the
subsequence of records with timestamp `t`. -/
theorem orderedInsert_filter_neg (t : Int) (a : NoteRecord)
    (ha : (a.timestamp == t) = false) (l : List NoteRecord) :
    (List.orderedInsert recGE a l).filter (fun r => r.timestamp == t) =
      l.filter (fun r => r.timestamp == t) := by
  induction l with
  | nil => simp [List.orderedInsert, List.filter_cons, ha]
  | cons b l ih =>
    by_cases h : recGE a b
    · simp [List.orderedInsert, h, List.filter_cons, ha]
    · simp [List.orderedInsert, h, List.filter_cons, ih]

/-- The descending insertion sort preserves, for each timestamp value,
the original relative order of the records carrying it. -/
theorem insertionSort_filter (t : Int) (l : List NoteRecord) :
    (List.insertionSort recGE l).filter (fun r => r.timestamp == t) =
      l.filter (fun r => r.timestamp == t) := by
  induction l with
  | nil => rfl
  | cons a l ih =>
    show (List.orderedInsert recGE a (List.insertionSort recGE l)).filter _ = _
    by_cases ha : a.timestamp = t
    · rw [orderedInsert_filter_pos t a ha, ih, List.filter_cons]
      simp [ha]
    · have ha' : (a.timestamp == t) = false := by simp [ha]
      rw [orderedInsert_filter_neg t a ha', ih, List.filter_cons]
      simp [ha']

/-- C5: the emitted record sequence is sorted by timestamp in
non-increasing order, and the sort is stable — for every timestamp
value, the records carrying it appear in the same relative order as the
records produced by the registry loop (which follows registry order). -/
theorem notesData_sorted_stable (l : List (NoteDescriptor × BuildEnv)) :
    List.Sorted recGE (notesData l) ∧
    ∀ t : Int, (notesData l).filter (fun r => r.timestamp == t) =
      (buildRecords l).filter (fun r => r.timestamp == t) :=
  ⟨List.sorted_insertionSort recGE (buildRecords l),
   fun t => insertionSort_filter t (buildRecords l)⟩

/-- C6: the claim asserts that every source-markup file anywhere in the
copied tree, including subdirectories, is deleted.  False: line 140 uses
`dst_folder.glob("*.typ")`, which only matches direct children, so a
`.typ` file inside a subdirectory survives the cleanup. -/
theorem cleanup_nested_typ_counterexample :
    ["sub", "ex.typ"] ∈ afterBuildFolder [["sub", "ex.typ"]] [] ∧
    endsWithL ".typ".data "ex.typ".data = true := by decide

/-- C6 (amended): after a successful build iteration the note's output
folder contains no top-level `.typ` file (the copied `main.typ` and the
synthesized `_build.typ` wrapper are deleted by the `*.typ` glob of
lines 139–141) and no top-level `page-*.svg` file (every per-page SVG
picked up by the glob of line 92 is unlinked at line 104 after being
inlined); `.typ` files inside subdirectories are not deleted. -/
theorem cleanup_top_level (copied : List (List String)) (pages : List String)
    (p : List String) (hp : p ∈ afterBuildFolder copied pages) :
    topMatches matchTypGlob p = false ∧ topMatches matchPageSvgGlob p = false := by
  unfold afterBuildFolder at hp
  rw [List.mem_filter] at hp
  obtain ⟨hp3, htyp⟩ := hp
  refine ⟨by simpa using htyp, ?_⟩
  rw [List.mem_append] at hp3
  cases hp3 with
  | inl h2 =>
    rw [List.mem_filter] at h2
    simpa using h2.2
  | inr hidx =>
    have hp' : p = ["index.html"] := by simpa using hidx
    subst hp'
    decide

/-- Witness for `cleanup_top_level`: a non-markup asset that survives
the build of a one-page note. -/
theorem cleanup_top_level_witness :
    topMatches matchTypGlob ["img.png"] = false ∧
    topMatches matchPageSvgGlob ["img.png"] = false :=
  cleanup_top_level [["img.png"], ["main.typ"]] ["page-1.svg"] ["img.png"] (by decide)

/-- A word character is neither `)` nor a newline. -/
theorem wordChar_ne_stop {c : Char} (h : isWordChar c = true) : c ≠ ')' ∧ c ≠ '\n' := by
  constructor <;> rintro rfl <;> exact absurd h (by decide)

/-- Inside a directive match, the scanner consumes every non-`)`,
non-newline character and leaves the match at a closing `)`, which it
consumes. -/
theorem sdGo_true_to_paren (body : List Char)
    (hbody : ∀ c ∈ body, c ≠ ')' ∧ c ≠ '\n') (rest : List Char) :
    stripDirectivesGo true (body ++ ')' :: rest) = stripDirectivesGo false rest := by
  induction body with
  | nil => simp [stripDirectivesGo]
  | cons c body ih =>
    have hc := hbody c (List.mem_cons_self c body)
    have ih' := ih (fun d hd => hbody d (List.mem_cons_of_mem c hd))
    simp [stripDirectivesGo, hc.1, hc.2, ih']

/-- Inside a directive match, a newline ends the match without being
consumed (it is emitted, `[^)\n]*` cannot cross it and `\)?` fails). -/
theorem sdGo_true_to_newline (body : List Char)
    (hbody : ∀ c ∈ body, c ≠ ')' ∧ c ≠ '\n') (rest : List Char) :
    stripDirectivesGo true (body ++ '\n' :: rest) = '\n' :: stripDirectivesGo false rest := by
  induction body with
  | nil => simp [stripDirectivesGo]
  | cons c body ih =>
    have hc := hbody c (List.mem_cons_self c body)
    have ih' := ih (fun d hd => hbody d (List.mem_cons_of_mem c hd))
    simp [stripDirectivesGo, hc.1, hc.2, ih']

/-- C4: the claim asserts the directive-stripping step removes exactly
the marker, the identifier and a parenthesized argument list, and
nothing else.  False: `[^)\n]*` in the pattern `#\w+[^)\n]*\)?` keeps
consuming after the identifier even when no argument list follows, so in
`"#a b"` the text `" b"` — which is no argument list — is removed as
well: the code yields `""` where the claim's reading preserves `" b"`. -/
theorem stripDirectives_counterexample :
    stripDirectives "#a b".data = [] ∧
    claimStripDirectives "#a b".data = " b".data ∧
    " b".data ≠ ([] : List Char) := by decide

/-- C4 (amended): a directive match removes the marker `#`, the
identifier, and then every following character up to the next `)` on
the same line — the `)` included — or, if no `)` occurs before the line
end, every character up to the newline (the newline itself is kept).
Text before the marker and text after the consumed region are
preserved. -/
theorem stripDirectives_spec (pre ident body rest : List Char)
    (hpre : '#' ∉ pre) (hne : ident ≠ [])
    (hword : ∀ c ∈ ident, isWordChar c = true)
    (hbody : ∀ c ∈ body, c ≠ ')' ∧ c ≠ '\n') :
    stripDirectivesGo false (pre ++ '#' :: (ident ++ body ++ ')' :: rest)) =
      pre ++ stripDirectivesGo false rest ∧
    stripDirectivesGo false (pre ++ '#' :: (ident ++ body ++ '\n' :: rest)) =
      pre ++ '\n' :: stripDirectivesGo false rest := by
  induction pre with
  | nil =>
    obtain ⟨c0, cs, rfl⟩ := List.exists_cons_of_ne_nil hne
    have hw0 : isWordChar c0 = true := hword c0 (List.mem_cons_self c0 cs)
    have hmix : ∀ c ∈ cs ++ body, c ≠ ')' ∧ c ≠ '\n' := by
      intro c hc
      rcases List.mem_append.mp hc with hcs | hb
      · exact wordChar_ne_stop (hword c (List.mem_cons_of_mem c0 hcs))
      · exact hbody c hb
    have henter : ∀ X : List Char, stripDirectivesGo false ('#' :: (c0 :: X)) =
        stripDirectivesGo true X := by
      intro X
      rw [stripDirectivesGo.eq_def]
      simp [hw0]
    constructor
    · simp only [List.nil_append, List.cons_append]
      rw [henter]
      exact sdGo_true_to_paren (cs ++ body) hmix rest
    · simp only [List.nil_append, List.cons_append]
      rw [henter]
      exact sdGo_true_to_newline (cs ++ body) hmix rest
  | cons c pre ih =>
    have hc : c ≠ '#' := fun h => hpre (h ▸ List.mem_cons_self c pre)
    have ih' := ih (fun h => hpre (List.mem_cons_of_mem c h))
    have hstep : ∀ X : List Char, stripDirectivesGo false (c :: X) =
        c :: stripDirectivesGo false X := by
      intro X
      rw [stripDirectivesGo.eq_def]
      simp [hc]
    constructor
    · show stripDirectivesGo false (c :: (pre ++ '#' :: (ident ++ body ++ ')' :: rest))) = _
      rw [hstep, ih'.1]
      rfl
    · show stripDirectivesGo false (c :: (pre ++ '#' :: (ident ++ body ++ '\n' :: rest))) = _
      rw [hstep, ih'.2]
      rfl

/-- Witness for `stripDirectives_spec`: `"x #fig(a) y"`-style inputs,
once with a closing parenthesis and once with a line end. -/
theorem stripDirectives_spec_witness :
    stripDirectivesGo false ("x ".data ++ '#' :: ("fig".data ++ "(a".data ++ ')' :: " y".data)) =
      "x ".data ++ stripDirectivesGo false " y".data ∧
    stripDirectivesGo false ("x ".data ++ '#' :: ("fig".data ++ "(a".data ++ '\n' :: " y".data)) =
      "x ".data ++ '\n' :: stripDirectivesGo false " y".data :=
  stripDirectives_spec "x ".data "fig".data "(a".data " y".data
    (by decide) (by decide) (by decide) (by decide)

/-- The helper `dropPref` succeeds exactly on lists extending the pattern. -/
theorem dropPref_iff {p l r : List Char} : dropPref p l = some r ↔ l = p ++ r := by
  induction p generalizing l with
  | nil => simp [dropPref]
  | cons a p ih =>
    cases l with
    | nil => simp [dropPref]
    | cons c cs =>
      by_cases hac : a = c
      · subst hac
        simp [dropPref, ih]
      · simp only [dropPref, if_neg hac, List.cons_append]
        constructor
        · intro h
          exact Option.noConfusion h
        · intro h
          injection h with h1 _
          exact absurd h1.symm hac

/-- An attribute match attempt succeeds on a fully explicit well-formed
occurrence placed at the current position. -/
theorem tryAttrAt_explicit (nh : Char) (nt ws v b : List Char) (w0 : Char)
    (hw0 : isSpaceChar w0 = true) (hws : ∀ c ∈ ws, isSpaceChar c = true)
    (hnh : isSpaceChar nh = false) (hv : ∀ c ∈ v, c ≠ '"') :
    tryAttrAt (nh :: nt) (w0 :: (ws ++ (nh :: (nt ++ '=' :: '"' :: (v ++ '"' :: b))))) =
      some b := by
  have h1 : (w0 :: (ws ++ (nh :: (nt ++ '=' :: '"' :: (v ++ '"' :: b))))).dropWhile
      isSpaceChar = nh :: (nt ++ '=' :: '"' :: (v ++ '"' :: b)) := by
    rw [List.dropWhile_cons_of_pos hw0, List.dropWhile_append_of_pos hws]
    exact List.dropWhile_cons_of_neg (by simp [hnh])
  have h2 : dropPref (nh :: (nt ++ ['=', '"']))
      (nh :: (nt ++ '=' :: '"' :: (v ++ '"' :: b))) = some (v ++ '"' :: b) := by
    rw [dropPref_iff]
    simp
  have h3 : quoteSplit (v ++ '"' :: b) = some b := by
    have hdw : (v ++ '"' :: b).dropWhile (fun d => !(d == '"')) = '"' :: b := by
      rw [List.dropWhile_append_of_pos (by intro x hx; simpa using hv x hx)]
      exact List.dropWhile_cons_of_neg (by simp)
    simp [quoteSplit, hdw]
  simp [tryAttrAt, hw0, h1, h2, h3]

/-- An attribute match attempt succeeds on a well-formed occurrence
placed at the current position. -/
theorem tryAttrAt_of_isAttr (nh : Char) (nt : List Char) (hnh : isSpaceChar nh = false)
    {m b : List Char} (hm : IsAttrM (nh :: nt) m) :
    tryAttrAt (nh :: nt) (m ++ b) = some b := by
  obtain ⟨ws, v, hmeq, hwsne, hwssp, hv⟩ := hm
  obtain ⟨w0, ws', rfl⟩ := List.exists_cons_of_ne_nil hwsne
  subst hmeq
  have hmb : (((w0 :: ws') ++ (nh :: nt) ++ '=' :: '"' :: (v ++ ['"'])) ++ b) =
      w0 :: (ws' ++ (nh :: (nt ++ '=' :: '"' :: (v ++ '"' :: b)))) := by
    simp
  rw [hmb]
  exact tryAttrAt_explicit nh nt ws' v b w0 (hwssp w0 (List.mem_cons_self _ _))
    (fun c hc => hwssp c (List.mem_cons_of_mem _ hc)) hnh hv

/-- An attribute match attempt that succeeds did match a well-formed
occurrence placed at the current position. -/
theorem tryAttrAt_some (name : List Char) {l r : List Char}
    (h : tryAttrAt name l = some r) : ∃ m, l = m ++ r ∧ IsAttrM name m := by
  cases l with
  | nil => simp [tryAttrAt] at h
  | cons c l' =>
    by_cases hsp : isSpaceChar c = true
    · simp only [tryAttrAt] at h
      rw [if_pos hsp] at h
      cases hdp : dropPref (name ++ ['=', '"']) ((c :: l').dropWhile isSpaceChar) with
      | none => rw [hdp] at h; exact Option.noConfusion h
      | some tail =>
        rw [hdp, Option.some_bind] at h
        cases hdw : tail.dropWhile (fun d => !(d == '"')) with
        | nil => simp [quoteSplit, hdw] at h
        | cons q qs =>
          have hq : q = '"' := by
            have hall := dropWhile_head_all (fun d => !(d == '"')) tail
            rw [hdw] at hall
            simpa using hall
          subst hq
          have hr : qs = r := by
            simpa [quoteSplit, hdw] using h
          subst hr
          have hsplit : (c :: l') = (c :: l').takeWhile isSpaceChar ++
              (c :: l').dropWhile isSpaceChar := (List.takeWhile_append_dropWhile _ _).symm
          have hB : (c :: l').dropWhile isSpaceChar = (name ++ ['=', '"']) ++ tail :=
            dropPref_iff.mp hdp
          have htail : tail = tail.takeWhile (fun d => !(d == '"')) ++ '"' :: qs := by
            conv_lhs => rw [← List.takeWhile_append_dropWhile (fun d => !(d == '"')) tail]
            rw [hdw]
          refine ⟨(c :: l').takeWhile isSpaceChar ++ name ++
            '=' :: '"' :: (tail.takeWhile (fun d => !(d == '"')) ++ ['"']), ?_, ?_⟩
          · conv_lhs => rw [hsplit, hB]
            conv_lhs => rw [htail]
            simp
          · refine ⟨(c :: l').takeWhile isSpaceChar,
              tail.takeWhile (fun d => !(d == '"')), by simp, ?_, ?_, ?_⟩
            · rw [List.takeWhile_cons_of_pos hsp]
              simp
            · intro x hx
              exact List.mem_takeWhile_imp hx
            · intro x hx
              simpa using List.mem_takeWhile_imp hx
    · simp only [tryAttrAt] at h
      rw [if_neg hsp] at h
      exact Option.noConfusion h

/-- A `count=1` attribute removal removes exactly the leftmost well-formed
occurrence when one exists, and nothing else. -/
theorem removeFirstAttrGo_spec (nh : Char) (nt : List Char)
    (hnh : isSpaceChar nh = false) (l : List Char) (h : HasAttrOcc (nh :: nt) l) :
    RemovedFirstAttr (nh :: nt) l (removeFirstAttrGo (nh :: nt) l) := by
  induction l with
  | nil =>
    exfalso
    obtain ⟨a, m, b, hl, hm⟩ := h
    obtain ⟨ws, v, hmeq, hwsne, _, _⟩ := hm
    have hnil : a = [] ∧ m = [] ∧ b = [] := by
      simpa [List.append_eq_nil] using hl.symm
    rw [hnil.2.1] at hmeq
    exact hwsne (List.append_eq_nil.mp
      (List.append_eq_nil.mp hmeq.symm).1).1
  | cons c rest ih =>
    cases htry : tryAttrAt (nh :: nt) (c :: rest) with
    | some r =>
      have hstep : removeFirstAttrGo (nh :: nt) (c :: rest) = r := by
        simp [removeFirstAttrGo, htry]
      rw [hstep]
      obtain ⟨m, hlm, hm⟩ := tryAttrAt_some _ htry
      exact ⟨[], m, r, by simpa using hlm, rfl, hm, fun _ _ _ _ _ => Nat.zero_le _⟩
    | none =>
      have hstep : removeFirstAttrGo (nh :: nt) (c :: rest) =
          c :: removeFirstAttrGo (nh :: nt) rest := by
        simp [removeFirstAttrGo, htry]
      obtain ⟨a, m, b, hl, hm⟩ := h
      have hane : a ≠ [] := by
        rintro rfl
        rw [List.nil_append] at hl
        rw [hl, tryAttrAt_of_isAttr nh nt hnh hm] at htry
        exact Option.noConfusion htry
      obtain ⟨a0, a1, rfl⟩ := List.exists_cons_of_ne_nil hane
      rw [List.cons_append, List.cons_append] at hl
      injection hl with hca hrest
      have hocc : HasAttrOcc (nh :: nt) rest := ⟨a1, m, b, hrest, hm⟩
      obtain ⟨A, M, B, hR, hout, hM, hmin⟩ := ih hocc
      rw [hstep]
      refine ⟨c :: A, M, B, ?_, ?_, hM, ?_⟩
      · rw [hR]
        simp
      · rw [hout]
        simp
      · rintro a' m' b' hl' hm'
        have ha'ne : a' ≠ [] := by
          rintro rfl
          rw [List.nil_append] at hl'
          rw [hl', tryAttrAt_of_isAttr nh nt hnh hm'] at htry
          exact Option.noConfusion htry
        obtain ⟨a0', a1', rfl⟩ := List.exists_cons_of_ne_nil ha'ne
        rw [List.cons_append, List.cons_append] at hl'
        injection hl' with _ hrest'
        have := hmin a1' m' b' hrest' hm'
        simp only [List.length_cons]
        omega

/-- C7: graphic assembly produces the single HTML document containing
the page documents concatenated in ascending page-number order with no
separator (the `"".join` of line 133 spliced into the template), where
each page document has had its first width attribute and then its first
height attribute removed (the `count=1` substitutions of lines 101–102)
and is otherwise unchanged.  The hypotheses say each page document
carries a width attribute and, after the width removal, a height
attribute — true of the compiler's SVG page documents. -/
theorem assembleHtml_spec (title : String) (files : List (Nat × String))
    (hw : ∀ p ∈ files, HasAttrOcc "width".data p.2.data)
    (hh : ∀ p ∈ files, HasAttrOcc "height".data (removeFirstAttrGo "width".data p.2.data)) :
    assembleHtml title files =
      htmlLead title ++
        String.join ((sortPages files).map (fun p => String.mk (stripWH p.2.data))) ++
        htmlSuffix ∧
    List.Sorted (fun a b => a ≤ b) ((sortPages files).map Prod.fst) ∧
    (sortPages files).Perm files ∧
    ∀ p ∈ files,
      RemovedFirstAttr "width".data p.2.data (removeFirstAttrGo "width".data p.2.data) ∧
      RemovedFirstAttr "height".data (removeFirstAttrGo "width".data p.2.data)
        (stripWH p.2.data) := by
  refine ⟨rfl, ?_, List.perm_insertionSort pageLe files, ?_⟩
  · have hsorted : List.Sorted pageLe (sortPages files) :=
      List.sorted_insertionSort pageLe files
    exact List.pairwise_map.mpr (hsorted.imp (fun h => h))
  · intro p hp
    constructor
    · exact removeFirstAttrGo_spec 'w' "idth".data (by decide) p.2.data (hw p hp)
    · exact removeFirstAttrGo_spec 'h' "eight".data (by decide) _ (hh p hp)

/-- Witness for `assembleHtml_spec`: two concrete SVG-like page
documents given out of order. -/
theorem assembleHtml_spec_witness :
    assembleHtml "T" [(2, "<b width=\"1\" height=\"2\">B</b>"), (1, "<a width=\"3\" height=\"4\">A</a>")] =
      htmlLead "T" ++
        String.join ((sortPages [(2, "<b width=\"1\" height=\"2\">B</b>"), (1, "<a width=\"3\" height=\"4\">A</a>")]).map
          (fun p => String.mk (stripWH p.2.data))) ++
        htmlSuffix ∧
    List.Sorted (fun a b => a ≤ b)
      ((sortPages [(2, "<b width=\"1\" height=\"2\">B</b>"), (1, "<a width=\"3\" height=\"4\">A</a>")]).map Prod.fst) ∧
    (sortPages [(2, "<b width=\"1\" height=\"2\">B</b>"), (1, "<a width=\"3\" height=\"4\">A</a>")]).Perm
      [(2, "<b width=\"1\" height=\"2\">B</b>"), (1, "<a width=\"3\" height=\"4\">A</a>")] ∧
    ∀ p ∈ [(2, "<b width=\"1\" height=\"2\">B</b>"), (1, "<a width=\"3\" height=\"4\">A</a>")],
      RemovedFirstAttr "width".data p.2.data (removeFirstAttrGo "width".data p.2.data) ∧
      RemovedFirstAttr "height".data (removeFirstAttrGo "width".data p.2.data)
        (stripWH p.2.data) := by
  refine assembleHtml_spec "T" _ ?_ ?_
  · intro p hp
    simp only [List.mem_cons, List.not_mem_nil, or_false] at hp
    rcases hp with rfl | rfl
    · exact ⟨"<b".data, " width=\"1\"".data, " height=\"2\">B</b>".data, by decide,
        [' '], "1".data, by decide, by decide, by decide, by decide⟩
    · exact ⟨"<a".data, " width=\"3\"".data, " height=\"4\">A</a>".data, by decide,
        [' '], "3".data, by decide, by decide, by decide, by decide⟩
  · intro p hp
    simp only [List.mem_cons, List.not_mem_nil, or_false] at hp
    rcases hp with rfl | rfl
    · exact ⟨"<b".data, " height=\"2\"".data, ">B</b>".data, by decide,
        [' '], "2".data, by decide, by decide, by decide, by decide⟩
    · exact ⟨"<a".data, " height=\"4\"".data, ">A</a>".data, by decide,
        [' '], "4".data, by decide, by decide, by decide, by decide⟩

/-- C2: the claim asserts that `extract_preview` yields `""` both on an
empty file and on a missing file.  The second half is false: line 36
(`typ_path.read_text()`) raises `FileNotFoundError` on a missing file
and nothing catches it, so the result is an error, not `""`. -/
theorem extract_preview_missing_counterexample :
    extract_preview none 200 = Except.error () ∧
    extract_preview none 200 ≠ Except.ok "" := by
  exact ⟨rfl, by intro h; exact Except.noConfusion h⟩

/-- C2 (amended): `extract_preview` on an empty file returns `Except.ok
""` (the empty string, no error); on a missing file it does not return
`""` — the uncaught `read_text` exception propagates, modelled as
`Except.error ()`. -/
theorem extract_preview_empty_missing (n : Nat) :
    extract_preview (some "") n = Except.ok "" ∧
    extract_preview none n = Except.error () := by
  constructor
  · have h : collapsedText "" = [] := rfl
    simp [extract_preview, extract_previewText, truncateL, h]
  · rfl

/-- C3: in the build loop, a descriptor whose source folder exists and
whose compiler invocation exits with status zero contributes exactly one
`NoteRecord`; a descriptor with a missing folder or a nonzero compiler
exit contributes zero records; in every case the loop continues with the
records of the surrounding descriptors unchanged (no per-descriptor
failure aborts the build). -/
theorem buildRecords_per_descriptor (pre post : List (NoteDescriptor × BuildEnv))
    (d : NoteDescriptor) (e : BuildEnv) :
    buildRecords (pre ++ (d, e) :: post) =
      buildRecords pre ++
        (if e.folderExists = true ∧ e.compileRc = 0 then [mkRecord d e] else []) ++
        buildRecords post := by
  induction pre with
  | nil =>
    by_cases h1 : e.folderExists = true <;> by_cases h2 : e.compileRc = 0 <;>
      simp [buildRecords, h1, h2]
  | cons p pre ih =>
    obtain ⟨d', e'⟩ := p
    by_cases h1 : e'.folderExists = true <;> by_cases h2 : e'.compileRc = 0 <;>
      simp [buildRecords, h1, h2, ih]

/-- C8: timestamp resolution is total (the Lean model of
`get_git_timestamp` returns, never raises).  A failed subprocess
invocation, empty stripped output, or non-integer output each yield no
timestamp, and the build then substitutes the wall-clock time
(lines 143–145); an integer output becomes the record's timestamp. -/
theorem resolveTimestamp_spec (out : String) (wall : Int) :
    resolveTimestamp none wall = wall ∧
    (pyStripL out.data = [] → resolveTimestamp (some out) wall = wall) ∧
    (parsePyInt (pyStripL out.data) = none → resolveTimestamp (some out) wall = wall) ∧
    (∀ n : Int, parsePyInt (pyStripL out.data) = some n →
      resolveTimestamp (some out) wall = n) := by
  refine ⟨rfl, ?_, ?_, ?_⟩
  · intro h
    simp [resolveTimestamp, get_git_timestamp, h]
  · intro h
    by_cases he : (pyStripL out.data).isEmpty <;>
      simp [resolveTimestamp, get_git_timestamp, he, h]
  · intro n h
    have hne : ¬ (pyStripL out.data).isEmpty = true := by
      intro he
      rw [List.isEmpty_iff] at he
      rw [he] at h
      simp [parsePyInt, digitsVal] at h
    simp [resolveTimestamp, get_git_timestamp, hne, h]

/-- Witness for `resolveTimestamp_spec` at concrete outputs: whitespace
output, non-integer output, and an integer output. -/
theorem resolveTimestamp_spec_witness :
    (pyStripL "  ".data = [] ∧ resolveTimestamp (some "  ") 7 = 7) ∧
    (parsePyInt (pyStripL "12x".data) = none ∧ resolveTimestamp (some "12x") 7 = 7) ∧
    (parsePyInt (pyStripL " 99 ".data) = some 99 ∧ resolveTimestamp (some " 99 ") 7 = 99) :=
  ⟨⟨by decide, (resolveTimestamp_spec "  " 7).2.1 (by decide)⟩,
   ⟨by decide, (resolveTimestamp_spec "12x" 7).2.2.1 (by decide)⟩,
   ⟨by decide, (resolveTimestamp_spec " 99 " 7).2.2.2 99 (by decide)⟩⟩

/-- C10: when the collapsed text exceeds the cap and its first `max_len`
characters contain no space, `extract_preview` performs a hard cut at
the cap (no word-boundary adjustment) and appends the ellipsis:
`text[:max_len].rsplit(" ", 1)` returns the whole prefix when no space
is present (lines 42–44). -/
theorem extract_preview_hard_cut (text : String) (max_len : Nat)
    (h1 : max_len < (collapsedText text).length)
    (h2 : ((collapsedText text).take max_len).contains ' ' = false) :
    extract_previewText text max_len =
      String.mk ((collapsedText text).take max_len ++ ['.', '.', '.']) := by
  unfold extract_previewText truncateL
  rw [if_pos h1]
  unfold rsplitBeforeLast
  rw [if_neg (by simpa using h2)]

/-- Witness for `extract_preview_hard_cut`: a 7-character spaceless
input with cap 5 is cut to its first 5 characters plus `"..."`. -/
theorem extract_preview_hard_cut_witness :
    5 < (collapsedText "aaaaaaa").length ∧
    ((collapsedText "aaaaaaa").take 5).contains ' ' = false ∧
    extract_previewText "aaaaaaa" 5 =
      String.mk ((collapsedText "aaaaaaa").take 5 ++ ['.', '.', '.']) :=
  ⟨by decide, by decide, extract_preview_hard_cut "aaaaaaa" 5 (by decide) (by decide)⟩
